import Mathlib

/-!
Verification of the node-vpk VPK archive codec (src/vpk.ts).

The TypeScript source is shallowly embedded as follows:

* JS strings that hold file names / extensions / paths are modelled as
  byte lists (`Str := List Nat`); the library reads and writes them byte
  by byte in the chosen single-byte-faithful encoding, so a byte list is
  the faithful model.  `String.prototype.trim` is modelled by `jsTrim`,
  stripping the ASCII whitespace bytes relevant to byte strings.
* `Buffer` contents and whole files are `List Nat` of byte values.
* JS objects used as insertion-ordered string maps (the `_tree` field and
  the parsed index tree) are modelled as insertion-ordered association
  lists.  (JS would iterate integer-like keys first; extensions, paths
  and file names are non-numeric strings, for which object iteration
  order is insertion order, matching the association list.)
* JS numbers reaching bitwise/serialisation code are modelled as `Nat`
  with explicit `% 2 ^ 32` / `&&& 0xFF` where the source relies on
  32-bit semantics; the `setVersion` argument is an `Int` (the API-level
  integer version number).
* `fs` calls are replaced by pure functions over the byte-list file:
  `readSync(fd, buf, 0, n, pos)` returns `min n (file.length - pos)`
  bytes and leaves the rest of the freshly allocated (zeroed) buffer
  untouched; this is `readBuf` / `bytesAvail` below.
* Thrown `Error` values are an explicit `VpkError` sum, one constructor
  per distinct throw site reachable in the modelled code; MD5 (the
  external spark-md5 package) is an abstract parameter `md5f`.
-/

/-- A byte string: the byte-level model of the JS strings handled by the
library. -/
abbrev Str := List Nat

/-- ASCII whitespace bytes removed by `String.prototype.trim` when the
string only holds single-byte characters. -/
def isJsSpace (b : Nat) : Bool :=
  b == 32 || b == 9 || b == 10 || b == 11 || b == 12 || b == 13

/-- Model of `String.prototype.trim` on byte strings: drop whitespace
from both ends. -/
def jsTrim (s : Str) : Str :=
  ((s.dropWhile isJsSpace).reverse.dropWhile isJsSpace).reverse

/-- The single-space sentinel that `addFile` substitutes for an empty
relative path (vpk.ts line 76). -/
def sentinelPath : Str := [32]

/-- The data source of a file added to a VPK: exactly one of an absolute
file path, a (path, offset, length) chunk of a file, or an in-memory
buffer (the three runtime shapes of `FileInPak.dataSource`). -/
inductive DataSource where
  | filePath (p : Str)
  | fileChunk (absolutePath : Str) (offset : Nat) (length : Nat)
  | buffer (data : List Nat)
deriving DecidableEq, Repr

/-- A leaf of the in-memory tree (`TreeLeaf` in vpk.ts): file name minus
extension plus its data source. -/
structure VTreeLeaf where
  fileName : Str
  source : DataSource
deriving DecidableEq, Repr

/-- One relative-path bucket: the path key and its ordered leaves. -/
abbrev PathBucket := Str × List VTreeLeaf

/-- The in-memory tree: extension key to ordered path buckets, insertion
ordered (models the nested `_tree` object). -/
abbrev VTree := List (Str × List PathBucket)

/-- A file handed to `addFile` (`FileInPak` in vpk.ts). -/
structure FileInPak where
  extension : Str
  relPath : Str
  extlessFileName : Str
  dataSource : DataSource
deriving DecidableEq, Repr

/-- First-match lookup in an insertion-ordered association list, the
model of reading a JS object property. -/
def alFind {α : Type} : List (Str × α) → Str → Option α
  | [], _ => none
  | (k, v) :: rest, key => if k = key then some v else alFind rest key

/-- Update the first entry with the given key, the model of assigning to
an existing JS object property. -/
def alUpdate {α : Type} : List (Str × α) → Str → (α → α) → List (Str × α)
  | [], _, _ => []
  | (k, v) :: rest, key, f =>
      if k = key then (k, f v) :: rest else (k, v) :: alUpdate rest key f

/-- Every error thrown by the modelled code, one constructor per throw
site: bad magic, the Respawn variant rejection, the v2 hashes-length
check, the tree-walk bounds check, the entry suffix check, duplicate
insertion, and the setVersion range check.  `outOfFuel` is an artifact
of the fueled embedding of the parser loops; it is never returned when
the fuel exceeds the file length. -/
inductive VpkError where
  | badMagic
  | unsupportedVariant
  | malformedHeader
  | indexOutOfBounds
  | corruptEntry
  | duplicateEntry
  | invalidVersion
  | outOfFuel
deriving DecidableEq, Repr

/-- The mutable state of a `Vpk` instance. -/
structure VpkState where
  version : Int
  headerLength : Nat
  tree : VTree
  treeLength : Nat
  fileCount : Nat
deriving DecidableEq, Repr

/-- The `Vpk` constructor: version 2, header length 28, empty tree. -/
def initialVpk : VpkState :=
  { version := 2, headerLength := 28, tree := [], treeLength := 0, fileCount := 0 }

/-- Model of `Vpk.getVersion`. -/
def vpkGetVersion (s : VpkState) : Int := s.version

/-- Model of `Vpk.setVersion` (vpk.ts lines 54-64): reject versions
outside 1..2, else store the version and the matching header length. -/
def vpkSetVersion (s : VpkState) (version : Int) : Except VpkError VpkState :=
  if version < 1 ∨ 2 < version then .error .invalidVersion
  else .ok { s with
    version := version,
    headerLength := if version = 1 then 12 else 28 }

/-- The relative path actually used as tree key by `addFile`, `getFile`
and `removeFile`: trim, then replace an empty result by the sentinel. -/
def fixRelPath (relPath : Str) : Str :=
  let t := jsTrim relPath
  if t = [] then sentinelPath else t

/-- First mutation of `addFile` (vpk.ts lines 78-79): seed the tracked
tree length with the 1-byte empty-tree terminator on the first add. -/
def seedTreeLength (s : VpkState) : VpkState :=
  if s.treeLength = 0 then { s with treeLength := 1 } else s

/-- Second mutation of `addFile` (vpk.ts lines 81-84): create the
extension bucket if absent, adding its name length + 2 terminators to
the tracked tree length. -/
def ensureExtBucket (s : VpkState) (ext : Str) : VpkState :=
  match alFind s.tree ext with
  | none =>
      { s with
        tree := s.tree ++ [(ext, [])],
        treeLength := s.treeLength + ext.length + 2 }
  | some _ => s

/-- Third mutation of `addFile` (vpk.ts lines 85-88): create the path
bucket under the extension if absent, adding its length + 2. -/
def ensurePathBucket (s : VpkState) (ext fixedRelPath : Str) : VpkState :=
  match alFind s.tree ext with
  | none => s
  | some buckets =>
      match alFind buckets fixedRelPath with
      | none =>
          { s with
            tree := alUpdate s.tree ext (fun bs => bs ++ [(fixedRelPath, [])]),
            treeLength := s.treeLength + fixedRelPath.length + 2 }
      | some _ => s

/-- The `leafArr` the duplicate loop of `addFile` scans (vpk.ts line
90). -/
def currentLeafArr (s : VpkState) (ext fixedRelPath : Str) : List VTreeLeaf :=
  match alFind s.tree ext with
  | none => []
  | some buckets => (alFind buckets fixedRelPath).getD []

/-- Final mutation of `addFile` (vpk.ts lines 102-110): append the leaf
and add name length + 1 terminator + 18 metadata bytes. -/
def pushLeaf (s : VpkState) (ext fixedRelPath : Str) (leaf : VTreeLeaf) : VpkState :=
  { s with
    tree := alUpdate s.tree ext
      (fun bs => alUpdate bs fixedRelPath (fun ls => ls ++ [leaf])),
    treeLength := s.treeLength + leaf.fileName.length + 1 + 18,
    fileCount := s.fileCount + 1 }

/-- Model of `Vpk.addFile` (vpk.ts lines 71-111).  The source mutates the
instance and may throw; the model returns the state as mutated up to the
point of return or throw, together with the error if one was thrown.
The mutations happen in source order: the tree-length seed, the
extension bucket, the path bucket, then the duplicate check and push. -/
def vpkAddFile (s0 : VpkState) (file : FileInPak) : VpkState × Option VpkError :=
  let fixedRelPath := fixRelPath file.relPath
  let s3 := ensurePathBucket (ensureExtBucket (seedTreeLength s0) file.extension)
    file.extension fixedRelPath
  if (currentLeafArr s3 file.extension fixedRelPath).any
      (fun leaf => leaf.fileName = file.extlessFileName) then
    (s3, some .duplicateEntry)
  else
    (pushLeaf s3 file.extension fixedRelPath
      { fileName := file.extlessFileName, source := file.dataSource },
     none)

/-- Model of `Vpk.getFiles` (vpk.ts lines 117-134): enumerate all leaves
with trimmed relative paths.  (The source rebuilds the data source with
a truthiness chain over the three optional leaf fields; on the tagged
model this is the identity on the stored source.) -/
def vpkGetFiles (s : VpkState) : List FileInPak :=
  s.tree.flatMap (fun extEntry =>
    extEntry.2.flatMap (fun bucket =>
      bucket.2.map (fun leaf =>
        { extension := extEntry.1, relPath := jsTrim bucket.1,
          extlessFileName := leaf.fileName, dataSource := leaf.source })))

/-- Model of `Vpk.getFile` (vpk.ts lines 143-164): look up the fixed
relative path and return the first leaf with the requested name. -/
def vpkGetFile (s : VpkState) (extension relPath extlessFileName : Str) :
    Option FileInPak :=
  let fixedRelPath := fixRelPath relPath
  match alFind s.tree extension with
  | none => none
  | some buckets =>
      match alFind buckets fixedRelPath with
      | none => none
      | some leafArr =>
          (leafArr.find? (fun leaf => leaf.fileName = extlessFileName)).map
            (fun leaf =>
              { extension := extension, relPath := jsTrim fixedRelPath,
                extlessFileName := leaf.fileName, dataSource := leaf.source })

/-- Remove the first leaf with the given name (the `splice` at the first
matching index in vpk.ts lines 182-191). -/
def removeFirstLeaf (leafArr : List VTreeLeaf) (name : Str) : List VTreeLeaf :=
  match leafArr with
  | [] => []
  | leaf :: rest =>
      if leaf.fileName = name then rest else leaf :: removeFirstLeaf rest name

/-- Model of `Vpk.removeFile` (vpk.ts lines 172-194): splice out the
first matching leaf if present; the tracked tree length and file count
are not touched. -/
def vpkRemoveFile (s : VpkState) (extension relPath extlessFileName : Str) :
    VpkState :=
  let fixedRelPath := fixRelPath relPath
  match alFind s.tree extension with
  | none => s
  | some buckets =>
      match alFind buckets fixedRelPath with
      | none => s
      | some _ =>
          { s with
            tree := alUpdate s.tree extension
              (fun bs => alUpdate bs fixedRelPath
                (fun ls => removeFirstLeaf ls extlessFileName)) }

/-- The byte length contributed to the serialized tree by one leaf: name,
its null terminator, and the 18-byte metadata record. -/
def leafByteLen (leaf : VTreeLeaf) : Nat := leaf.fileName.length + 1 + 18

/-- The byte length contributed by one path bucket: path plus its two
null terminators (its own and the bucket-closing one) plus its leaves. -/
def bucketByteLen (bucket : PathBucket) : Nat :=
  bucket.1.length + 2 + (bucket.2.map leafByteLen).sum

/-- The byte length contributed by one extension entry. -/
def extByteLen (extEntry : Str × List PathBucket) : Nat :=
  extEntry.1.length + 2 + (extEntry.2.map bucketByteLen).sum

/-- Modelled from the spec: the tree byte length formula of spec.md
invariant 1 — 1 (empty-tree terminator) plus, per extension, length + 2,
plus, per path, length + 2, plus, per entry, name length + 1 + 18.  This
is the spec-side quantity that claim C2 compares with the incrementally
tracked `treeLength` field. -/
def specTreeByteLength (t : VTree) : Nat := 1 + (t.map extByteLen).sum

/-- One round of the CRC-32 table construction (vpk.ts lines 694-699):
the reflected zip polynomial step.  Values stay below 2 ^ 32. -/
def crcTableStep (c : Nat) : Nat :=
  if c &&& 1 = 1 then 0xEDB88320 ^^^ (c >>> 1) else c >>> 1

/-- Entry n of the CRC-32 table: eight polynomial steps applied to n
(`makeCrc32Table`).  The table is indexed with an `&&& 0xFF` mask at the
call site, so a function on `Nat` models it exactly. -/
def crc32Table (n : Nat) : Nat := crcTableStep^[8] n

/-- One call of the `crc32` function (vpk.ts lines 715-726) on a whole
buffer: xor-in 0xFFFFFFFF, fold the byte steps, xor-out.  Callers always
pass the full buffer (`len = bytesRead`, `pos = 0`), so the byte list is
the buffer.  JS does the arithmetic on 32-bit values; all operations
here preserve values below 2 ^ 32 for the reachable states, and the
masked table index matches the JS signed/unsigned coercions. -/
def crc32run (crc : Nat) (buf : List Nat) : Nat :=
  (buf.foldl (fun c b => (c >>> 8) ^^^ crc32Table ((c ^^^ b) &&& 0xFF))
    (crc ^^^ 0xFFFFFFFF)) ^^^ 0xFFFFFFFF

/-- The constant header magic `Vpk.MAGIC`. -/
def vpkMagic : Nat := 0x55aa1234

/-- Little-endian 16-bit encoding (`writeUInt16LE`); values at the write
sites are below 2 ^ 16, and the modulo mirrors the 16-bit truncation. -/
def encodeLE16 (v : Nat) : List Nat := [v % 256, v / 256 % 256]

/-- Little-endian 32-bit encoding (`writeUInt32LE`). -/
def encodeLE32 (v : Nat) : List Nat :=
  [v % 256, v / 256 % 256, v / 65536 % 256, v / 16777216 % 256]

/-- `readUInt16LE` at offset i of a buffer. -/
def decodeLE16 (b : List Nat) (i : Nat) : Nat := b.getD i 0 + 256 * b.getD (i + 1) 0

/-- `readUInt32LE` at offset i of a buffer. -/
def decodeLE32 (b : List Nat) (i : Nat) : Nat :=
  b.getD i 0 + 256 * b.getD (i + 1) 0 + 65536 * b.getD (i + 2) 0 +
    16777216 * b.getD (i + 3) 0

/-- The filesystem seen by the writer: absolute path to file bytes. -/
abbrev Fsys := Str → Option (List Nat)

/-- The bytes streamed for a data source during `saveToFile`: the whole
file for a path source, the available slice for a chunk source (the
`readSync` loop stops at end of file, hence the clamping `take`), the
buffer itself for a buffer source.  `none` models the `openSync` throw
for a missing source file. -/
def resolveSource (fsys : Fsys) : DataSource → Option (List Nat)
  | .filePath p => fsys p
  | .fileChunk p off len => (fsys p).map (fun bs => (bs.drop off).take len)
  | .buffer d => some d

/-- The checksum value `saveToFile` ends up writing for one leaf: the
path and chunk branches thread the streamed bytes through `crc32`
(block-streamed in the source; equal to one whole-buffer call by
`crc32run_append` below), while the buffer branch of vpk.ts lines
478-480 never updates `checksum`, leaving its initial value 0. -/
def sourceCrc : DataSource → List Nat → Nat
  | .buffer _, _ => 0
  | _, data => crc32run 0 data

/-- The 18-byte metadata record written at vpk.ts lines 535-541.  The
archive offset argument receives `fileOffset - treeLength -
headerLength`, which the caller computes as the cumulative data length
before this entry. -/
def metadataBytes (crc archiveOffset fileLength : Nat) : List Nat :=
  encodeLE32 crc ++ encodeLE16 0 ++ encodeLE16 0x7fff ++
    encodeLE32 archiveOffset ++ encodeLE32 fileLength ++ encodeLE16 0xffff

/-- Serialize the leaves of one path bucket: per leaf, name + NUL + the
18-byte metadata slot into the tree region and the resolved bytes into
the data region.  `cum` is the cumulative data length before the first
leaf, i.e. the raw archive offset of the next entry. -/
def serLeaves (fsys : Fsys) : List VTreeLeaf → Nat → Option (List Nat × List Nat)
  | [], _ => some ([], [])
  | leaf :: rest, cum =>
      match resolveSource fsys leaf.source with
      | none => none
      | some d =>
          match serLeaves fsys rest (cum + d.length) with
          | none => none
          | some (tb, db) =>
              some (leaf.fileName ++ 0 ::
                      (metadataBytes (sourceCrc leaf.source d) cum d.length ++ tb),
                    d ++ db)

/-- Serialize the path buckets of one extension: path + NUL, the leaves,
and the bucket-closing NUL.  (Paths are first normalized with
`split(path.sep).join('/')`; with the forward-slash separator of the
modelled host this is the identity.) -/
def serBuckets (fsys : Fsys) : List PathBucket → Nat → Option (List Nat × List Nat)
  | [], _ => some ([], [])
  | bucket :: rest, cum =>
      match serLeaves fsys bucket.2 cum with
      | none => none
      | some (ltb, ldb) =>
          match serBuckets fsys rest (cum + ldb.length) with
          | none => none
          | some (tb, db) =>
              some (bucket.1 ++ 0 :: (ltb ++ 0 :: tb), ldb ++ db)

/-- Serialize the extension entries: extension + NUL, its buckets, and
the extension-closing NUL. -/
def serExts (fsys : Fsys) : VTree → Nat → Option (List Nat × List Nat)
  | [], _ => some ([], [])
  | extEntry :: rest, cum =>
      match serBuckets fsys extEntry.2 cum with
      | none => none
      | some (btb, bdb) =>
          match serExts fsys rest (cum + bdb.length) with
          | none => none
          | some (tb, db) =>
              some (extEntry.1 ++ 0 :: (btb ++ 0 :: tb), bdb ++ db)

/-- Model of `Vpk.saveToFile` (vpk.ts lines 418-613): the final contents
of the written file.  The source writes the tree region at the cursor
and each entry's data at the running data offset `headerLength +
treeLength + cum`; on the states reachable through the public API the
tracked tree length equals the serialized tree length, so the file is
the flat concatenation below.  For version 2 the embed-chunk length is
back-patched into the header and the three MD5 digests (computed by
re-reading the header, tree and embed-chunk regions of the just-written
file) are appended; `md5f` is the abstract digest function of the
external spark-md5 dependency. -/
def saveToFileBytes (s : VpkState) (fsys : Fsys) (md5f : List Nat → List Nat) :
    Option (List Nat) :=
  match serExts fsys s.tree 0 with
  | none => none
  | some (extB, dataB) =>
      let treeB := extB ++ [0]
      let embedChunkLength := dataB.length
      let hdr12 := encodeLE32 vpkMagic ++ encodeLE32 s.version.toNat ++
        encodeLE32 s.treeLength
      if s.version = 2 then
        let hdr := hdr12 ++ encodeLE32 embedChunkLength ++ encodeLE32 0 ++
          encodeLE32 48 ++ encodeLE32 0
        let base := hdr ++ treeB ++ dataB
        let headerRead := base.take s.headerLength
        let treeRead := (base.drop s.headerLength).take s.treeLength
        let embedRead := (base.drop (s.headerLength + s.treeLength)).take embedChunkLength
        let treeDigest := md5f treeRead
        let chunkHashesDigest := md5f []
        let fileDigest :=
          md5f (headerRead ++ treeRead ++ embedRead ++ treeDigest ++ chunkHashesDigest)
        some (base ++ treeDigest ++ chunkHashesDigest ++ fileDigest)
      else
        some (hdr12 ++ treeB ++ dataB)

/-- Model of one `readSync(fd, buf, 0, n, pos)` into a freshly zeroed
buffer of size n: the available bytes followed by the untouched zeros. -/
def readBuf (file : List Nat) (pos n : Nat) : List Nat :=
  let r := (file.drop pos).take n
  r ++ List.replicate (n - r.length) 0

/-- The number of bytes such a read returns. -/
def bytesAvail (file : List Nat) (pos n : Nat) : Nat := min n (file.length - pos)

/-- The byte-at-a-time null-terminated read, structurally recursing on
the remaining bytes: stop with 0 consumed bytes at end of file, with 1
consumed byte on a NUL, else accumulate.  `readNextStringFromFile` below
applies it at a file position. -/
def readNullTerminated : List Nat → Str × Nat
  | [] => ([], 0)
  | b :: rest =>
      if b = 0 then ([], 1)
      else
        let r := readNullTerminated rest
        (b :: r.1, r.2 + 1)

/-- Model of `readNextStringFromFile` (vpk.ts lines 810-828): read single
bytes until a NUL or end of file, returning the string and the number of
bytes consumed (terminator included; at end of file the bytes read so
far with no terminator).  Reading single bytes at successive positions
is reading along the suffix of the file at the start position. -/
def readNextStringFromFile (file : List Nat) (pos : Nat) : Str × Nat :=
  readNullTerminated (file.drop pos)

/-- The per-entry metadata as exposed by the parser (`FileMetadata`). -/
structure ParsedMeta where
  crc32 : Nat
  preloadLength : Nat
  archiveIndex : Nat
  archiveOffset : Nat
  fileLength : Nat
  suffix : Nat
deriving DecidableEq, Repr

/-- A parsed index-tree leaf (`IndexTreeLeaf`). -/
structure ParsedLeaf where
  fileName : Str
  metadata : ParsedMeta
deriving DecidableEq, Repr

/-- The parsed index tree: extension key to path key to leaves. -/
abbrev ParsedTree := List (Str × List (Str × List ParsedLeaf))

/-- Decoding and validation of one 18-byte metadata record, vpk.ts lines
775-795: reject a suffix other than 0xffff, resolve the local-archive
sentinel in the archive index, and normalize the archive offset by
adding tree length and header length. -/
def parseMetaRecord (headerLength treeLength : Nat) (buf : List Nat) :
    Except VpkError ParsedMeta :=
  let crc := decodeLE32 buf 0
  let preloadLength := decodeLE16 buf 4
  let archiveIndex := decodeLE16 buf 6
  let archiveOffset := decodeLE32 buf 8
  let fileLength := decodeLE32 buf 12
  let suffix := decodeLE16 buf 16
  if suffix ≠ 0xffff then .error .corruptEntry
  else
    .ok { crc32 := crc,
          preloadLength := preloadLength,
          archiveIndex :=
            if archiveIndex = 0x7fff then headerLength + treeLength + archiveOffset
            else archiveIndex,
          archiveOffset := archiveOffset + treeLength + headerLength,
          fileLength := fileLength,
          suffix := suffix }

/-- The innermost loop of `getFileIndexTree`: file names and their
18-byte records until an empty name.  Returns the leaves and the
position after the loop.  The fuel only bounds the iteration count of
the fueled embedding; each iteration consumes at least one byte, so any
fuel above the file length behaves as the unbounded source loop. -/
def parseEntryLoop (file : List Nat) (headerLength treeLength : Nat) :
    Nat → Nat → Except VpkError (List ParsedLeaf × Nat)
  | 0, _ => .error .outOfFuel
  | fuel + 1, pos =>
      let nameRead := readNextStringFromFile file pos
      let pos1 := pos + nameRead.2
      if nameRead.1 = [] then .ok ([], pos1)
      else
        let buf := readBuf file pos1 18
        let pos2 := pos1 + bytesAvail file pos1 18
        match parseMetaRecord headerLength treeLength buf with
        | .error e => .error e
        | .ok md =>
            match parseEntryLoop file headerLength treeLength fuel pos2 with
            | .error e => .error e
            | .ok (leaves, p) =>
                .ok ({ fileName := nameRead.1, metadata := md } :: leaves, p)

/-- The middle loop of `getFileIndexTree`: relative paths until an empty
path, each followed by its entry loop. -/
def parseBucketLoop (file : List Nat) (headerLength treeLength : Nat) :
    Nat → Nat → Except VpkError (List (Str × List ParsedLeaf) × Nat)
  | 0, _ => .error .outOfFuel
  | fuel + 1, pos =>
      let pathRead := readNextStringFromFile file pos
      let pos1 := pos + pathRead.2
      if pathRead.1 = [] then .ok ([], pos1)
      else
        match parseEntryLoop file headerLength treeLength fuel pos1 with
        | .error e => .error e
        | .ok (leaves, pos2) =>
            match parseBucketLoop file headerLength treeLength fuel pos2 with
            | .error e => .error e
            | .ok (buckets, p) => .ok ((pathRead.1, leaves) :: buckets, p)

/-- The outer loop of `getFileIndexTree` (vpk.ts lines 741-798):
extensions until an empty extension, with the out-of-bounds check at the
top of each iteration — the only place the walk compares its position
with `maxIndex`. -/
def parseExtLoop (file : List Nat) (headerLength treeLength maxIndex : Nat) :
    Nat → Nat → Except VpkError (ParsedTree × Nat)
  | 0, _ => .error .outOfFuel
  | fuel + 1, pos =>
      if pos > maxIndex then .error .indexOutOfBounds
      else
        let extRead := readNextStringFromFile file pos
        let pos1 := pos + extRead.2
        if extRead.1 = [] then .ok ([], pos1)
        else
          match parseBucketLoop file headerLength treeLength fuel pos1 with
          | .error e => .error e
          | .ok (buckets, pos2) =>
              match parseExtLoop file headerLength treeLength maxIndex fuel pos2 with
              | .error e => .error e
              | .ok (exts, p) => .ok ((extRead.1, buckets) :: exts, p)

/-- Model of `getFileIndexTree`: the walk starting at the header end.
(The source stores buckets in nested objects; for a file whose tree
repeats a key the object assignment would reset that key while the
association list keeps both, a difference invisible to the claims.) -/
def getFileIndexTree (file : List Nat) (headerLength treeLength maxIndex fuel : Nat) :
    Except VpkError ParsedTree :=
  (parseExtLoop file headerLength treeLength maxIndex fuel headerLength).map (·.1)

/-- One hex digit character code (0-9a-f), as produced by
`Buffer.toString('hex')`. -/
def hexDigitChar (n : Nat) : Nat := if n < 10 then 48 + n else 87 + n

/-- Hex encoding of a byte list: two lowercase digits per byte. -/
def hexEncode (bytes : List Nat) : Str :=
  bytes.flatMap (fun b => [hexDigitChar (b / 16 % 16), hexDigitChar (b % 16)])

/-- The v2 trailer metadata returned by the header parser
(`VpkV2Metadata`); the three checksums are kept as the hex strings the
source builds from the 16 raw trailer bytes. -/
structure VpkV2Meta where
  embedChunkLength : Nat
  chunkHashesLength : Nat
  hashesLength : Nat
  signatureLength : Nat
  treeChecksum : Str
  chunkHashesChecksum : Str
  fileChecksum : Str
deriving DecidableEq, Repr

/-- The result of `indexFromFileInternal`. -/
structure IndexFromFileResult where
  fileIndexTree : ParsedTree
  vpkVersion : Nat
  vpkTreeLength : Nat
  vpkV2Metadata : Option VpkV2Meta
deriving DecidableEq, Repr

/-- Model of `indexFromFileInternal` (vpk.ts lines 836-904): magic and
version checks, version-dependent header, v2 trailer checksums, then the
tree walk with `maxIndex = treeLength + headerLength`.  Position
arithmetic mirrors the source's `pakPos` accumulation of returned read
sizes.  (After the first trailer read the source reuses the 16-byte
buffer without re-zeroing; for the truncated files where that matters
the model pads with zeros instead, which no claim observes.) -/
def indexFromFileInternal (file : List Nat) (fuel : Nat) :
    Except VpkError IndexFromFileResult :=
  let buf12 := readBuf file 0 12
  let pos0 := bytesAvail file 0 12
  let magic := decodeLE32 buf12 0
  if magic ≠ vpkMagic then .error .badMagic
  else
    let version := decodeLE32 buf12 4
    if version = 0x00030002 then .error .unsupportedVariant
    else
      let treeLength := decodeLE32 buf12 8
      if version = 2 then
        let buf16 := readBuf file 12 16
        let pos1 := pos0 + bytesAvail file 12 16
        let embedChunkLength := decodeLE32 buf16 0
        let chunkHashesLength := decodeLE32 buf16 4
        let hashesLength := decodeLE32 buf16 8
        let signatureLength := decodeLE32 buf16 12
        if hashesLength ≠ 48 then .error .malformedHeader
        else
          let pos2 := pos1 + treeLength + embedChunkLength + chunkHashesLength
          let treeChecksum := hexEncode (readBuf file pos2 16)
          let pos3 := pos2 + bytesAvail file pos2 16
          let chunkHashesChecksum := hexEncode (readBuf file pos3 16)
          let pos4 := pos3 + bytesAvail file pos3 16
          let fileChecksum := hexEncode (readBuf file pos4 16)
          match getFileIndexTree file 28 treeLength (treeLength + 28) fuel with
          | .error e => .error e
          | .ok tree =>
              .ok { fileIndexTree := tree, vpkVersion := version,
                    vpkTreeLength := treeLength,
                    vpkV2Metadata := some {
                      embedChunkLength := embedChunkLength,
                      chunkHashesLength := chunkHashesLength,
                      hashesLength := hashesLength,
                      signatureLength := signatureLength,
                      treeChecksum := treeChecksum,
                      chunkHashesChecksum := chunkHashesChecksum,
                      fileChecksum := fileChecksum } }
      else
        match getFileIndexTree file 12 treeLength (treeLength + 12) fuel with
        | .error e => .error e
        | .ok tree =>
            .ok { fileIndexTree := tree, vpkVersion := version,
                  vpkTreeLength := treeLength, vpkV2Metadata := none }

/-- The nested iteration order shared by `fromFile`, `indexFromFile` and
`verifyFile` over a parsed tree, flattened to (extension, relPath, leaf)
triples. -/
def parsedEntriesOf (t : ParsedTree) : List (Str × Str × ParsedLeaf) :=
  t.flatMap (fun extEntry =>
    extEntry.2.flatMap (fun bucket =>
      bucket.2.map (fun leaf => (extEntry.1, bucket.1, leaf))))

/-- Model of `Vpk.fromFile` (vpk.ts lines 239-259): parse the index, set
the parsed version on a fresh instance, then `addFile` every parsed leaf
as a chunk of the source file at its normalized archive offset. -/
def vpkFromFile (absFilePath : Str) (file : List Nat) (fuel : Nat) :
    Except VpkError VpkState :=
  match indexFromFileInternal file fuel with
  | .error e => .error e
  | .ok r =>
      match vpkSetVersion initialVpk (Int.ofNat r.vpkVersion) with
      | .error e => .error e
      | .ok s0 =>
          (parsedEntriesOf r.fileIndexTree).foldlM
            (fun s entry =>
              match vpkAddFile s
                { extension := entry.1, relPath := jsTrim entry.2.1,
                  extlessFileName := entry.2.2.fileName,
                  dataSource := .fileChunk absFilePath entry.2.2.metadata.archiveOffset
                    entry.2.2.metadata.fileLength } with
              | (s', none) => .ok s'
              | (_, some e) => .error e)
            s0

/-- A pak'ed index entry (`IndexEntry`). -/
structure IndexEntry where
  relPath : Str
  metadata : ParsedMeta
deriving DecidableEq, Repr

/-- Model of `Vpk.indexFromFile` (vpk.ts lines 267-287): flatten the
parsed tree to full relative file names (path/name.ext, or name.ext when
the path trims to empty). -/
def vpkIndexFromFile (file : List Nat) (fuel : Nat) :
    Except VpkError (List IndexEntry) :=
  match indexFromFileInternal file fuel with
  | .error e => .error e
  | .ok r =>
      .ok ((parsedEntriesOf r.fileIndexTree).map (fun entry =>
        { relPath :=
            if jsTrim entry.2.1 ≠ [] then
              entry.2.1 ++ 47 :: (entry.2.2.fileName ++ 46 :: entry.1)
            else entry.2.2.fileName ++ 46 :: entry.1,
          metadata := entry.2.2.metadata }))

/-- One reported verification mismatch; the source pushes formatted
strings, modelled here structurally in push order. -/
inductive VerifyError where
  | crcMismatch (extension relPath fileName : Str) (given computed : Nat)
  | fileChecksumMismatch
  | treeChecksumMismatch
  | chunkHashesChecksumMismatch
deriving DecidableEq, Repr

/-- Model of `Vpk.verifyFile` (vpk.ts lines 295-410).  Per entry the CRC
of the declared (archiveOffset, fileLength) region is recomputed (the
source streams 16000-byte blocks and compares hexadecimal renderings;
block streaming equals the single `crc32run` call by `crc32run_append`,
and the hex rendering of the 32-bit values is injective, so natural
number comparison is faithful).  For v2, the three MD5 digests are
recomputed over the 28-byte header, the tree region and the embed-chunk
region and compared with the stored trailer hex strings; mismatches are
pushed in source order: file, tree, chunk hashes. -/
def vpkVerifyFile (file : List Nat) (fuel : Nat) (md5f : List Nat → List Nat) :
    Except VpkError (List VerifyError) :=
  match indexFromFileInternal file fuel with
  | .error e => .error e
  | .ok r =>
      let crcErrors := (parsedEntriesOf r.fileIndexTree).filterMap (fun entry =>
        let givenCrc := entry.2.2.metadata.crc32
        let newCrc := crc32run 0
          ((file.drop entry.2.2.metadata.archiveOffset).take entry.2.2.metadata.fileLength)
        if givenCrc ≠ newCrc then
          some (.crcMismatch entry.1 entry.2.1 entry.2.2.fileName givenCrc newCrc)
        else none)
      match r.vpkV2Metadata with
      | none => .ok crcErrors
      | some m =>
          let headerRead := readBuf file 0 28
          let treeRead := (file.drop 28).take r.vpkTreeLength
          let embedRead := (file.drop (28 + r.vpkTreeLength)).take m.embedChunkLength
          let newTreeDigest := md5f treeRead
          let newChunkHashesDigest := md5f []
          let newFileChecksum :=
            hexEncode (md5f (headerRead ++ treeRead ++ embedRead ++
              newTreeDigest ++ newChunkHashesDigest))
          let v2Errors :=
            (if newFileChecksum ≠ m.fileChecksum then [VerifyError.fileChecksumMismatch]
             else []) ++
            (if hexEncode newTreeDigest ≠ m.treeChecksum then [VerifyError.treeChecksumMismatch]
             else []) ++
            (if hexEncode newChunkHashesDigest ≠ m.chunkHashesChecksum then
              [VerifyError.chunkHashesChecksumMismatch]
             else [])
          .ok (crcErrors ++ v2Errors)

/-- Code-derived characterization of the condition under which addFile
throws DuplicateEntry: the trim-normalized (extension, relPath, name)
triple is already present. -/
def duplicateCond (s : VpkState) (f : FileInPak) : Bool :=
  match alFind s.tree f.extension with
  | none => false
  | some bs =>
      ((alFind bs (fixRelPath f.relPath)).getD []).any
        (fun leaf => leaf.fileName = f.extlessFileName)

/-- The tracked tree length against the spec formula: 0 on the empty
tree (the formula counts the terminator byte the writer emits even for
an empty tree only once something is added), the formula value
otherwise. -/
def treeLenInv (s : VpkState) : Prop :=
  s.treeLength = if s.tree = [] then 0 else specTreeByteLength s.tree

instance : DecidableEq ParsedTree := inferInstance

instance {e a : Type} [DecidableEq e] [DecidableEq a] : DecidableEq (Except e a) :=
  fun x y =>
    match x, y with
    | .error e1, .error e2 =>
        if h : e1 = e2 then isTrue (by rw [h])
        else isFalse (fun hc => h (Except.error.inj hc))
    | .error _, .ok _ => isFalse (fun hc => Except.noConfusion hc)
    | .ok _, .error _ => isFalse (fun hc => Except.noConfusion hc)
    | .ok a1, .ok a2 =>
        if h : a1 = a2 then isTrue (by rw [h])
        else isFalse (fun hc => h (Except.ok.inj hc))

def md5Dummy : List Nat → List Nat := fun _ => List.replicate 16 0

def fsysEmpty : Fsys := fun _ => none

def vpkV1Base : VpkState :=
  match vpkSetVersion initialVpk 1 with
  | .ok s => s
  | .error _ => initialVpk

def bufferFile : FileInPak :=
  { extension := [116, 120, 116], relPath := [], extlessFileName := [97],
    dataSource := .buffer [97] }

def vpkC1 : VpkState := (vpkAddFile vpkV1Base bufferFile).1

def savedC1 : List Nat := (saveToFileBytes vpkC1 fsysEmpty md5Dummy).getD []

def refetchedC1 : VpkState :=
  { version := 1, headerLength := 12,
    tree := [([116, 120, 116],
      [([32], [{ fileName := [97], source := DataSource.fileChunk [112] 41 1 }])])],
    treeLength := 29, fileCount := 1 }

def fileC2 : FileInPak :=
  { extension := [97], relPath := [], extlessFileName := [98], dataSource := .buffer [] }

def stateC2 : VpkState := vpkRemoveFile (vpkAddFile initialVpk fileC2).1 [97] [] [98]

def fileC3 : List Nat := encodeLE32 vpkMagic ++ encodeLE32 1 ++ encodeLE32 0 ++ [0]

def fileC5 : List Nat := encodeLE32 vpkMagic ++ encodeLE32 3 ++ encodeLE32 1 ++ [0]

def fileRespawn : List Nat :=
  encodeLE32 vpkMagic ++ encodeLE32 0x00030002 ++ encodeLE32 0 ++ [0]

def claimDuplicateCond (s : VpkState) (f : FileInPak) : Bool :=
  match alFind s.tree f.extension with
  | none => false
  | some bs =>
      ((alFind bs (if f.relPath = [] then sentinelPath else f.relPath)).getD []).any
        (fun leaf => leaf.fileName = f.extlessFileName)

def stateC7 : VpkState :=
  (vpkAddFile initialVpk
    { extension := [116], relPath := [98], extlessFileName := [99],
      dataSource := .buffer [] }).1

def fileC7 : FileInPak :=
  { extension := [116], relPath := [32, 98], extlessFileName := [99],
    dataSource := .buffer [] }

def fileInC7 : FileInPak :=
  { extension := [116], relPath := [98], extlessFileName := [99],
    dataSource := .buffer [] }

def metaC1 : ParsedMeta :=
  { crc32 := 0, preloadLength := 0, archiveIndex := 41, archiveOffset := 41,
    fileLength := 1, suffix := 0xffff }

def treeC1 : ParsedTree :=
  [([116, 120, 116], [([32], [{ fileName := [97], metadata := metaC1 }])])]

def entryC1 : IndexEntry := { relPath := [97, 46, 116, 120, 116], metadata := metaC1 }

lemma dropWhile_head_false {p : Nat → Bool} {l t : List Nat} {b : Nat}
    (h : l.dropWhile p = b :: t) : p b = false := by
  induction l with
  | nil => simp [List.dropWhile] at h
  | cons a rest ih =>
      rw [List.dropWhile_cons] at h
      by_cases hp : p a = true
      · simp [hp] at h; exact ih h
      · simp [hp] at h; rw [← h.1]; simp [hp]

lemma jsTrim_ne_sentinel (s : Str) : jsTrim s ≠ sentinelPath := by
  intro h
  unfold jsTrim sentinelPath at h
  have h2 : (s.dropWhile isJsSpace).reverse.dropWhile isJsSpace = [32] := by
    have := congrArg List.reverse h
    simpa using this
  have := dropWhile_head_false h2
  simp [isJsSpace] at this

lemma alFind_append_self {α : Type} (l : List (Str × α)) (k : Str) (v : α)
    (h : alFind l k = none) : alFind (l ++ [(k, v)]) k = some v := by
  induction l with
  | nil => simp [alFind]
  | cons x rest ih =>
      obtain ⟨k', v'⟩ := x
      by_cases hk : k' = k
      · simp [alFind, hk] at h
      · simp only [List.cons_append, alFind, hk, if_false] at h ⊢
        exact ih h

lemma alFind_update_self {α : Type} (l : List (Str × α)) (k : Str) (f : α → α) (a : α)
    (h : alFind l k = some a) : alFind (alUpdate l k f) k = some (f a) := by
  induction l with
  | nil => simp [alFind] at h
  | cons x rest ih =>
      obtain ⟨k', v'⟩ := x
      by_cases hk : k' = k
      · simp [alFind, hk] at h
        simp [alUpdate, hk, alFind, h]
      · simp only [alFind, hk, if_false] at h
        simp only [alUpdate, hk, if_false, alFind]
        exact ih h

lemma alUpdate_sum {α : Type} (g : Str × α → Nat) (l : List (Str × α)) (k : Str)
    (f : α → α) (a : α) (h : alFind l k = some a) :
    ((alUpdate l k f).map g).sum + g (k, a) = (l.map g).sum + g (k, f a) := by
  induction l with
  | nil => simp [alFind] at h
  | cons x rest ih =>
      obtain ⟨k', v'⟩ := x
      by_cases hk : k' = k
      · subst hk
        simp [alFind] at h
        subst h
        simp [alUpdate]
        omega
      · simp only [alFind, hk, if_false] at h
        simp only [alUpdate, hk, if_false, List.map_cons, List.sum_cons]
        have := ih h
        omega

lemma crc32run_append (c : Nat) (a b : List Nat) :
    crc32run (crc32run c a) b = crc32run c (a ++ b) := by
  unfold crc32run
  rw [List.foldl_append]
  congr 1
  have : ∀ x : Nat, x ^^^ 0xFFFFFFFF ^^^ 0xFFFFFFFF = x := by
    intro x
    rw [Nat.xor_assoc, Nat.xor_self, Nat.xor_zero]
  rw [this]

lemma seedTreeLength_tree (s : VpkState) : (seedTreeLength s).tree = s.tree := by
  unfold seedTreeLength; split <;> rfl

lemma seedTreeLength_eq_of_ne (s : VpkState) (h : s.treeLength ≠ 0) :
    seedTreeLength s = s := by
  unfold seedTreeLength; simp [h]

lemma ensureExtBucket_find (s : VpkState) (ext : Str) :
    alFind (ensureExtBucket s ext).tree ext = some ((alFind s.tree ext).getD []) := by
  unfold ensureExtBucket
  cases h : alFind s.tree ext with
  | none => simp only [Option.getD_none]; exact alFind_append_self s.tree ext [] h
  | some bs => simp [h]

lemma ensureExtBucket_eq_of_found (s : VpkState) (ext : Str) (bs : List PathBucket)
    (h : alFind s.tree ext = some bs) : ensureExtBucket s ext = s := by
  unfold ensureExtBucket; simp [h]

lemma ensurePathBucket_eq_of_found (s : VpkState) (ext p : Str)
    (bs : List PathBucket) (ls : List VTreeLeaf)
    (hext : alFind s.tree ext = some bs) (hp : alFind bs p = some ls) :
    ensurePathBucket s ext p = s := by
  simp only [ensurePathBucket, hext, hp]

lemma ensurePathBucket_find (s : VpkState) (ext p : Str) (bs : List PathBucket)
    (hext : alFind s.tree ext = some bs) :
    ∃ bs', alFind (ensurePathBucket s ext p).tree ext = some bs' ∧
      alFind bs' p = some ((alFind bs p).getD []) := by
  cases hp : alFind bs p with
  | none =>
      refine ⟨bs ++ [(p, [])], ?_, ?_⟩
      · simp only [ensurePathBucket, hext, hp]
        exact alFind_update_self s.tree ext _ bs hext
      · simpa using alFind_append_self bs p [] hp
  | some ls =>
      refine ⟨bs, ?_, by simp [hp]⟩
      simp only [ensurePathBucket, hext, hp]

lemma currentLeafArr_eq (s : VpkState) (ext p : Str) (bs' : List PathBucket)
    (ls : List VTreeLeaf) (hext : alFind s.tree ext = some bs')
    (hp : alFind bs' p = some ls) : currentLeafArr s ext p = ls := by
  simp only [currentLeafArr, hext, hp, Option.getD_some]

lemma currentLeafArr_after (s : VpkState) (ext p : Str) :
    currentLeafArr (ensurePathBucket (ensureExtBucket s ext) ext p) ext p =
      ((alFind s.tree ext).bind (fun bs => alFind bs p)).getD [] := by
  have hfind := ensureExtBucket_find s ext
  obtain ⟨bs', h1, h2⟩ := ensurePathBucket_find (ensureExtBucket s ext) ext p _ hfind
  rw [currentLeafArr_eq _ ext p bs' _ h1 h2]
  cases h : alFind s.tree ext with
  | none => simp [h, alFind]
  | some bs => simp [h]

lemma spec_append_ext (t : VTree) (ext : Str) :
    specTreeByteLength (t ++ [(ext, [])]) = specTreeByteLength t + (ext.length + 2) := by
  simp [specTreeByteLength, extByteLen]
  omega

lemma spec_ensureExt (s : VpkState) (ext : Str) :
    ∃ d, specTreeByteLength (ensureExtBucket s ext).tree = specTreeByteLength s.tree + d ∧
      (ensureExtBucket s ext).treeLength = s.treeLength + d := by
  cases h : alFind s.tree ext with
  | none =>
      exact ⟨ext.length + 2, by simp [ensureExtBucket, h, spec_append_ext],
        by simp [ensureExtBucket, h]; omega⟩
  | some bs => exact ⟨0, by simp [ensureExtBucket, h], by simp [ensureExtBucket, h]⟩

lemma spec_ensurePath (s : VpkState) (ext p : Str) :
    ∃ d, specTreeByteLength (ensurePathBucket s ext p).tree = specTreeByteLength s.tree + d ∧
      (ensurePathBucket s ext p).treeLength = s.treeLength + d := by
  cases hext : alFind s.tree ext with
  | none =>
      exact ⟨0, by simp [ensurePathBucket, hext], by simp [ensurePathBucket, hext]⟩
  | some bs =>
      cases hp : alFind bs p with
      | none =>
          refine ⟨p.length + 2, ?_, ?_⟩
          · have h := alUpdate_sum extByteLen s.tree ext (fun bs => bs ++ [(p, [])]) bs hext
            simp only [ensurePathBucket, hext, hp, specTreeByteLength]
            simp [extByteLen, bucketByteLen] at h
            omega
          · simp [ensurePathBucket, hext, hp]; omega
      | some ls =>
          exact ⟨0, by simp [ensurePathBucket, hext, hp],
            by simp [ensurePathBucket, hext, hp]⟩

lemma spec_pushLeaf (s : VpkState) (ext p : Str) (leaf : VTreeLeaf)
    (bs : List PathBucket) (ls : List VTreeLeaf)
    (hext : alFind s.tree ext = some bs) (hp : alFind bs p = some ls) :
    specTreeByteLength (pushLeaf s ext p leaf).tree =
      specTreeByteLength s.tree + (leaf.fileName.length + 1 + 18) := by
  have h1 := alUpdate_sum extByteLen s.tree ext
    (fun bs => alUpdate bs p (fun ls => ls ++ [leaf])) bs hext
  have h2 := alUpdate_sum bucketByteLen bs p (fun ls => ls ++ [leaf]) ls hp
  simp only [pushLeaf, specTreeByteLength]
  simp [extByteLen, bucketByteLen, leafByteLen] at h1 h2 ⊢
  omega

lemma duplicateCond_eq (s : VpkState) (f : FileInPak) :
    duplicateCond s f =
      (((alFind s.tree f.extension).bind
          (fun bs => alFind bs (fixRelPath f.relPath))).getD []).any
        (fun leaf => leaf.fileName = f.extlessFileName) := by
  unfold duplicateCond
  cases h : alFind s.tree f.extension with
  | none => simp
  | some bs => simp

lemma vpkAddFile_err_iff (s : VpkState) (f : FileInPak) :
    (vpkAddFile s f).2 = some .duplicateEntry ↔ duplicateCond s f = true := by
  have hcur : currentLeafArr
      (ensurePathBucket (ensureExtBucket (seedTreeLength s) f.extension)
        f.extension (fixRelPath f.relPath)) f.extension (fixRelPath f.relPath) =
      ((alFind s.tree f.extension).bind
        (fun bs => alFind bs (fixRelPath f.relPath))).getD [] := by
    rw [currentLeafArr_after, seedTreeLength_tree]
  unfold vpkAddFile
  dsimp only
  rw [hcur, duplicateCond_eq]
  by_cases hany : ((((alFind s.tree f.extension).bind
      (fun bs => alFind bs (fixRelPath f.relPath))).getD []).any
        (fun leaf => leaf.fileName = f.extlessFileName)) = true
  · simp [hany]
  · simp [hany]

lemma alUpdate_length {α : Type} (l : List (Str × α)) (k : Str) (f : α → α) :
    (alUpdate l k f).length = l.length := by
  induction l with
  | nil => rfl
  | cons x rest ih =>
      obtain ⟨k', v'⟩ := x
      by_cases hk : k' = k
      · simp [alUpdate, hk]
      · simp [alUpdate, hk, ih]

lemma vpkAddFile_dup_state (s : VpkState) (f : FileInPak)
    (hz : s.treeLength = 0 → s.tree = [])
    (herr : (vpkAddFile s f).2 = some .duplicateEntry) :
    (vpkAddFile s f).1 = s := by
  have hdup := (vpkAddFile_err_iff s f).mp herr
  rw [duplicateCond_eq] at hdup
  cases hext : alFind s.tree f.extension with
  | none => rw [hext] at hdup; simp at hdup
  | some bs =>
      rw [hext] at hdup
      simp only [Option.some_bind] at hdup
      cases hp : alFind bs (fixRelPath f.relPath) with
      | none => rw [hp] at hdup; simp at hdup
      | some ls =>
          rw [hp] at hdup
          simp only [Option.getD_some] at hdup
          have htree : s.tree ≠ [] := by
            intro h0; rw [h0] at hext; simp [alFind] at hext
          have hlen : s.treeLength ≠ 0 := fun h0 => htree (hz h0)
          have h3 : ensurePathBucket (ensureExtBucket (seedTreeLength s) f.extension)
              f.extension (fixRelPath f.relPath) = s := by
            rw [seedTreeLength_eq_of_ne s hlen,
              ensureExtBucket_eq_of_found s _ bs hext,
              ensurePathBucket_eq_of_found s _ _ bs ls hext hp]
          unfold vpkAddFile
          dsimp only
          rw [h3, currentLeafArr_eq s _ _ bs ls hext hp, if_pos hdup]

lemma vpkAddFile_preserves_inv (s : VpkState) (f : FileInPak)
    (hinv : treeLenInv s) : treeLenInv (vpkAddFile s f).1 := by
  by_cases ht : s.tree = []
  · have hlen : s.treeLength = 0 := by rw [hinv, if_pos ht]
    unfold vpkAddFile seedTreeLength ensureExtBucket ensurePathBucket currentLeafArr pushLeaf
    simp [ht, hlen, alFind, alUpdate, treeLenInv, specTreeByteLength, extByteLen,
      bucketByteLen, leafByteLen]
    omega
  · have hspec : s.treeLength = specTreeByteLength s.tree := by rw [hinv, if_neg ht]
    have hlen : s.treeLength ≠ 0 := by
      rw [hspec]; unfold specTreeByteLength; omega
    have hseed : seedTreeLength s = s := seedTreeLength_eq_of_ne s hlen
    obtain ⟨d1, hd1s, hd1l⟩ := spec_ensureExt s f.extension
    obtain ⟨d2, hd2s, hd2l⟩ := spec_ensurePath (ensureExtBucket s f.extension)
      f.extension (fixRelPath f.relPath)
    set s3 := ensurePathBucket (ensureExtBucket s f.extension) f.extension
      (fixRelPath f.relPath) with hs3
    have hs3tree : s3.tree ≠ [] := by
      have hlen2 : (ensureExtBucket s f.extension).tree.length ≠ 0 := by
        cases h : alFind s.tree f.extension with
        | none => simp [ensureExtBucket, h, ht]
        | some bs =>
            simp only [ensureExtBucket, h]
            exact fun h0 => ht (List.eq_nil_of_length_eq_zero h0)
      have hlen3 : s3.tree.length ≠ 0 := by
        rw [hs3]
        cases h : alFind (ensureExtBucket s f.extension).tree f.extension with
        | none => simp only [ensurePathBucket, h]; exact hlen2
        | some bs =>
            cases h2 : alFind bs (fixRelPath f.relPath) with
            | none =>
                simp only [ensurePathBucket, h, h2]
                simpa [alUpdate_length] using hlen2
            | some ls => simp only [ensurePathBucket, h, h2]; exact hlen2
      exact fun h0 => hlen3 (by rw [h0]; rfl)
    have hs3spec : specTreeByteLength s3.tree = specTreeByteLength s.tree + d1 + d2 := by
      rw [hs3, hd2s, hd1s]
    have hs3len : s3.treeLength = s.treeLength + d1 + d2 := by
      rw [hs3, hd2l, hd1l]
    have hfind := ensureExtBucket_find s f.extension
    obtain ⟨bs3, h1, h2⟩ := ensurePathBucket_find (ensureExtBucket s f.extension)
      f.extension (fixRelPath f.relPath) _ hfind
    unfold vpkAddFile
    dsimp only
    rw [hseed, ← hs3]
    by_cases hany : ((currentLeafArr s3 f.extension (fixRelPath f.relPath)).any
        (fun leaf => leaf.fileName = f.extlessFileName)) = true
    · rw [if_pos hany]
      unfold treeLenInv
      rw [if_neg hs3tree]
      rw [hs3len, hs3spec, hspec]
    · rw [if_neg hany]
      unfold treeLenInv
      have hpushspec := spec_pushLeaf s3 f.extension (fixRelPath f.relPath)
        { fileName := f.extlessFileName, source := f.dataSource } bs3 _ h1 h2
      have hpushtree : (pushLeaf s3 f.extension (fixRelPath f.relPath)
          { fileName := f.extlessFileName, source := f.dataSource }).tree ≠ [] := by
        unfold pushLeaf
        intro h0
        apply hs3tree
        have := congrArg List.length h0
        rw [alUpdate_length] at this
        exact List.eq_nil_of_length_eq_zero this
      rw [if_neg hpushtree, hpushspec]
      unfold pushLeaf
      dsimp only
      rw [hs3len, hs3spec, hspec]
      omega

lemma find?_append_of_none {l1 l2 : List VTreeLeaf} {p : VTreeLeaf → Bool}
    (h : l1.find? p = none) : (l1 ++ l2).find? p = l2.find? p := by
  induction l1 with
  | nil => simp
  | cons x rest ih =>
      cases hp : p x with
      | true => simp [List.find?, hp] at h
      | false =>
          simp only [List.cons_append, List.find?, hp] at h ⊢
          exact ih h

lemma jsTrim_sentinel : jsTrim sentinelPath = [] := by decide

lemma vpkAddFile_ok_getFile (s : VpkState) (f : FileInPak)
    (hrel : f.relPath = []) (hok : (vpkAddFile s f).2 = none) :
    vpkGetFile (vpkAddFile s f).1 f.extension [] f.extlessFileName =
      some { extension := f.extension, relPath := [],
             extlessFileName := f.extlessFileName, dataSource := f.dataSource } := by
  have hfind := ensureExtBucket_find (seedTreeLength s) f.extension
  obtain ⟨bs3, h1, h2⟩ := ensurePathBucket_find
    (ensureExtBucket (seedTreeLength s) f.extension) f.extension
    (fixRelPath f.relPath) _ hfind
  set s3 := ensurePathBucket (ensureExtBucket (seedTreeLength s) f.extension)
    f.extension (fixRelPath f.relPath) with hs3
  set L := ((alFind ((alFind (seedTreeLength s).tree f.extension).getD [])
    (fixRelPath f.relPath)).getD []) with hL
  have hcur : currentLeafArr s3 f.extension (fixRelPath f.relPath) = L :=
    currentLeafArr_eq s3 _ _ bs3 L h1 h2
  have hany : ((currentLeafArr s3 f.extension (fixRelPath f.relPath)).any
      (fun leaf => leaf.fileName = f.extlessFileName)) = false := by
    cases hco : ((currentLeafArr s3 f.extension (fixRelPath f.relPath)).any
        (fun leaf => leaf.fileName = f.extlessFileName)) with
    | false => rfl
    | true =>
        exfalso
        unfold vpkAddFile at hok
        dsimp only at hok
        rw [← hs3, if_pos hco] at hok
        simp at hok
  have hres : (vpkAddFile s f).1 = pushLeaf s3 f.extension (fixRelPath f.relPath)
      { fileName := f.extlessFileName, source := f.dataSource } := by
    unfold vpkAddFile
    dsimp only
    rw [← hs3, if_neg (by simp [hany])]
  rw [hres]
  have hfind1 : alFind (pushLeaf s3 f.extension (fixRelPath f.relPath)
      { fileName := f.extlessFileName, source := f.dataSource }).tree f.extension =
      some (alUpdate bs3 (fixRelPath f.relPath)
        (fun ls => ls ++ [{ fileName := f.extlessFileName, source := f.dataSource }])) := by
    unfold pushLeaf
    exact alFind_update_self s3.tree f.extension _ bs3 h1
  have hfind2 : alFind (alUpdate bs3 (fixRelPath f.relPath)
      (fun ls => ls ++ [{ fileName := f.extlessFileName, source := f.dataSource }]))
      (fixRelPath f.relPath) =
      some (L ++ [{ fileName := f.extlessFileName, source := f.dataSource }]) :=
    alFind_update_self bs3 (fixRelPath f.relPath) _ L h2
  have hnone : L.find? (fun leaf => leaf.fileName = f.extlessFileName) = none := by
    rw [hcur] at hany
    rw [List.find?_eq_none]
    intro x hx
    have := (List.any_eq_false).mp (by exact hany) x hx
    simpa using this
  have hfix : fixRelPath f.relPath = sentinelPath := by rw [hrel]; rfl
  rw [hfix] at hfind1 hfind2 ⊢
  have h0 : fixRelPath ([] : Str) = sentinelPath := by rfl
  unfold vpkGetFile
  dsimp only
  rw [h0]
  simp only [hfind1, hfind2]
  rw [find?_append_of_none hnone]
  simp [List.find?, jsTrim_sentinel]

lemma readNullTerminated_empty_le (l : List Nat)
    (h : (readNullTerminated l).1 = []) : (readNullTerminated l).2 ≤ 1 := by
  cases l with
  | nil => simp [readNullTerminated]
  | cons b rest =>
      by_cases h0 : b = 0
      · simp [readNullTerminated, h0]
      · simp [readNullTerminated, h0] at h

lemma readStr_empty_le (file : List Nat) (pos : Nat)
    (h : (readNextStringFromFile file pos).1 = []) :
    (readNextStringFromFile file pos).2 ≤ 1 := by
  unfold readNextStringFromFile at h ⊢
  exact readNullTerminated_empty_le _ h

lemma parseExtLoop_ok_le (file : List Nat) (hl tl maxI : Nat) :
    ∀ fuel pos t endPos,
      parseExtLoop file hl tl maxI fuel pos = .ok (t, endPos) → endPos ≤ maxI + 1 := by
  intro fuel
  induction fuel with
  | zero => intro pos t e h; simp [parseExtLoop] at h
  | succ n ih =>
      intro pos t e h
      rw [parseExtLoop] at h
      by_cases hb : pos > maxI
      · rw [if_pos hb] at h; simp at h
      · rw [if_neg hb] at h
        dsimp only at h
        by_cases hx : (readNextStringFromFile file pos).1 = []
        · rw [if_pos hx] at h
          have hle := readStr_empty_le file pos hx
          have h2 := congrArg Prod.snd (Except.ok.inj h)
          dsimp at h2
          omega
        · rw [if_neg hx] at h
          cases hbk : parseBucketLoop file hl tl n
              (pos + (readNextStringFromFile file pos).2) with
          | error e' => rw [hbk] at h; simp at h
          | ok pr =>
              rw [hbk] at h
              dsimp only at h
              cases hrec : parseExtLoop file hl tl maxI n pr.2 with
              | error e' => rw [hrec] at h; simp at h
              | ok pr2 =>
                  rw [hrec] at h
                  dsimp only at h
                  have h2 := congrArg Prod.snd (Except.ok.inj h)
                  dsimp at h2
                  have h3 := ih pr.2 pr2.1 pr2.2 (by rw [hrec])
                  omega

lemma parseMetaRecord_ok_suffix (headerLength treeLength : Nat) (buf : List Nat)
    (md : ParsedMeta) (h : parseMetaRecord headerLength treeLength buf = .ok md) :
    md.suffix = 0xffff := by
  unfold parseMetaRecord at h
  by_cases hs : decodeLE16 buf 16 ≠ 0xffff
  · rw [if_pos hs] at h; cases h
  · rw [if_neg hs] at h
    push_neg at hs
    injection h with h
    rw [← h]
    exact hs

lemma parseEntryLoop_suffix (file : List Nat) (hl tl : Nat) :
    ∀ fuel pos leaves endPos,
      parseEntryLoop file hl tl fuel pos = .ok (leaves, endPos) →
      ∀ leaf ∈ leaves, leaf.metadata.suffix = 0xffff := by
  intro fuel
  induction fuel with
  | zero => intro pos leaves e h; simp [parseEntryLoop] at h
  | succ n ih =>
      intro pos leaves e h
      rw [parseEntryLoop] at h
      dsimp only at h
      by_cases hx : (readNextStringFromFile file pos).1 = []
      · rw [if_pos hx] at h
        have h1 := congrArg Prod.fst (Except.ok.inj h)
        dsimp at h1
        rw [← h1]
        intro leaf hmem
        cases hmem
      · rw [if_neg hx] at h
        cases hmd : parseMetaRecord hl tl (readBuf file
            (pos + (readNextStringFromFile file pos).2) 18) with
        | error e' => rw [hmd] at h; cases h
        | ok md =>
            rw [hmd] at h
            dsimp only at h
            cases hrec : parseEntryLoop file hl tl n
                (pos + (readNextStringFromFile file pos).2 +
                  bytesAvail file (pos + (readNextStringFromFile file pos).2) 18) with
            | error e' => rw [hrec] at h; cases h
            | ok pr =>
                rw [hrec] at h
                dsimp only at h
                have h1 := congrArg Prod.fst (Except.ok.inj h)
                dsimp at h1
                rw [← h1]
                intro leaf hmem
                rcases List.mem_cons.mp hmem with hhd | htl
                · rw [hhd]
                  exact parseMetaRecord_ok_suffix hl tl _ md hmd
                · exact ih _ pr.1 pr.2 (by rw [hrec]) leaf htl

lemma parseBucketLoop_suffix (file : List Nat) (hl tl : Nat) :
    ∀ fuel pos buckets endPos,
      parseBucketLoop file hl tl fuel pos = .ok (buckets, endPos) →
      ∀ b ∈ buckets, ∀ leaf ∈ b.2, leaf.metadata.suffix = 0xffff := by
  intro fuel
  induction fuel with
  | zero => intro pos buckets e h; simp [parseBucketLoop] at h
  | succ n ih =>
      intro pos buckets e h
      rw [parseBucketLoop] at h
      by_cases hx : (readNextStringFromFile file pos).1 = []
      · rw [if_pos hx] at h
        have h1 := congrArg Prod.fst (Except.ok.inj h)
        dsimp at h1
        rw [← h1]
        intro b hb
        cases hb
      · rw [if_neg hx] at h
        cases hen : parseEntryLoop file hl tl n
            (pos + (readNextStringFromFile file pos).2) with
        | error e' => rw [hen] at h; cases h
        | ok pr =>
            rw [hen] at h
            dsimp only at h
            cases hrec : parseBucketLoop file hl tl n pr.2 with
            | error e' => rw [hrec] at h; cases h
            | ok pr2 =>
                rw [hrec] at h
                dsimp only at h
                have h1 := congrArg Prod.fst (Except.ok.inj h)
                dsimp at h1
                rw [← h1]
                intro b hb
                rcases List.mem_cons.mp hb with hhd | htl
                · rw [hhd]
                  exact parseEntryLoop_suffix file hl tl n _ pr.1 pr.2 (by rw [hen])
                · exact ih pr.2 pr2.1 pr2.2 (by rw [hrec]) b htl

lemma parseExtLoop_suffix (file : List Nat) (hl tl maxI : Nat) :
    ∀ fuel pos t endPos,
      parseExtLoop file hl tl maxI fuel pos = .ok (t, endPos) →
      ∀ x ∈ t, ∀ b ∈ x.2, ∀ leaf ∈ b.2, leaf.metadata.suffix = 0xffff := by
  intro fuel
  induction fuel with
  | zero => intro pos t e h; simp [parseExtLoop] at h
  | succ n ih =>
      intro pos t e h
      rw [parseExtLoop] at h
      by_cases hb0 : pos > maxI
      · rw [if_pos hb0] at h; cases h
      · rw [if_neg hb0] at h
        dsimp only at h
        by_cases hx : (readNextStringFromFile file pos).1 = []
        · rw [if_pos hx] at h
          have h1 := congrArg Prod.fst (Except.ok.inj h)
          dsimp at h1
          rw [← h1]
          intro x hxm
          cases hxm
        · rw [if_neg hx] at h
          cases hbk : parseBucketLoop file hl tl n
              (pos + (readNextStringFromFile file pos).2) with
          | error e' => rw [hbk] at h; cases h
          | ok pr =>
              rw [hbk] at h
              dsimp only at h
              cases hrec : parseExtLoop file hl tl maxI n pr.2 with
              | error e' => rw [hrec] at h; cases h
              | ok pr2 =>
                  rw [hrec] at h
                  dsimp only at h
                  have h1 := congrArg Prod.fst (Except.ok.inj h)
                  dsimp at h1
                  rw [← h1]
                  intro x hxm
                  rcases List.mem_cons.mp hxm with hhd | htl
                  · rw [hhd]
                    exact parseBucketLoop_suffix file hl tl n _ pr.1 pr.2 (by rw [hbk])
                  · exact ih pr.2 pr2.1 pr2.2 (by rw [hrec]) x htl

lemma parseMetaRecord_ok_offset (headerLength treeLength : Nat) (buf : List Nat)
    (md : ParsedMeta) (h : parseMetaRecord headerLength treeLength buf = .ok md) :
    md.archiveOffset = decodeLE32 buf 8 + treeLength + headerLength := by
  unfold parseMetaRecord at h
  by_cases hs : decodeLE16 buf 16 ≠ 0xffff
  · rw [if_pos hs] at h; cases h
  · rw [if_neg hs] at h
    injection h with h
    rw [← h]

lemma indexFromFileInternal_respawn (file : List Nat) (fuel : Nat)
    (hm : decodeLE32 (readBuf file 0 12) 0 = vpkMagic)
    (hv : decodeLE32 (readBuf file 0 12) 4 = 0x00030002) :
    indexFromFileInternal file fuel = .error .unsupportedVariant := by
  unfold indexFromFileInternal
  simp [hm, hv]

lemma indexFromFileInternal_ok_version (file : List Nat) (fuel : Nat)
    (r : IndexFromFileResult) (h : indexFromFileInternal file fuel = .ok r) :
    r.vpkVersion = decodeLE32 (readBuf file 0 12) 4 := by
  unfold indexFromFileInternal at h
  dsimp only at h
  split at h
  · cases h
  · split at h
    · cases h
    · split at h
      · split at h
        · cases h
        · split at h
          · cases h
          · injection h with h
            rw [← h]
      · split at h
        · cases h
        · injection h with h
          rw [← h]

lemma vpkFromFile_ok_version (path : Str) (file : List Nat) (fuel : Nat)
    (s : VpkState) (h : vpkFromFile path file fuel = .ok s) :
    decodeLE32 (readBuf file 0 12) 4 = 1 ∨ decodeLE32 (readBuf file 0 12) 4 = 2 := by
  unfold vpkFromFile at h
  cases hint : indexFromFileInternal file fuel with
  | error e => rw [hint] at h; cases h
  | ok r =>
      rw [hint] at h
      dsimp only at h
      have hver := indexFromFileInternal_ok_version file fuel r hint
      cases hsv : vpkSetVersion initialVpk (Int.ofNat r.vpkVersion) with
      | error e => rw [hsv] at h; cases h
      | ok s0 =>
          unfold vpkSetVersion at hsv
          by_cases hc : ((Int.ofNat r.vpkVersion) < 1 ∨ 2 < (Int.ofNat r.vpkVersion))
          · rw [if_pos hc] at hsv; cases hsv
          · push_neg at hc
            simp only [Int.ofNat_eq_natCast] at hc
            rw [← hver]
            omega

/-- C1: the round-trip claim fails for buffer-sourced entries, and the
spec is the clear intent: `saveToFile` computes the CRC-32 while
streaming path and chunk sources but never feeds a buffer source to
`crc32` (vpk.ts lines 478-480), so a buffer entry is written with CRC 0.
Evaluated at a version-1 archive with the single buffer entry
("txt", "", "a") holding the byte "a": the save succeeds, the reopened
index reports CRC-32 0 while the CRC-32 of the data is not 0, and
`verifyFile` on the freshly saved file reports one CRC mismatch instead
of the claimed empty list; `fromFile` itself parses the file back with
the same entry count. -/
theorem C1_buffer_crc_dropped :
    (saveToFileBytes vpkC1 fsysEmpty md5Dummy).isSome = true ∧
    (vpkIndexFromFile savedC1 64).map (List.map (fun e => e.metadata.crc32)) =
      .ok [0] ∧
    crc32run 0 [97] ≠ 0 ∧
    vpkVerifyFile savedC1 64 md5Dummy =
      .ok [.crcMismatch [116, 120, 116] [32] [97] 0 (crc32run 0 [97])] ∧
    vpkFromFile [112] savedC1 64 = .ok refetchedC1 := by decide

/-- C2 counterexample: after the operation sequence addFile then
removeFile, the tracked tree length (27: the removed entry is still
counted) differs from the spec formula over the remaining tree (7),
because `removeFile` never updates the tracked length. -/
theorem C2_counterexample : stateC2.treeLength ≠ specTreeByteLength stateC2.tree := by
  decide

/-- C2 (amended): the tracked tree byte length equals 1 plus, per
extension, length + 2, plus, per path, length + 2, plus, per entry,
name length + 1 + 18, and is maintained incrementally by `addFile`
(the fresh archive tracks 0 against the formula's 1 until the first
entry is added); `removeFile` never updates the tracked length, so the
equality is only preserved across sequences of addFile operations and
goes stale when removeFile deletes an entry. -/
theorem C2_treeLength_incremental :
    treeLenInv initialVpk ∧
    (∀ (s : VpkState) (f : FileInPak), treeLenInv s → treeLenInv (vpkAddFile s f).1) ∧
    (∀ (s : VpkState) (extension relPath extlessFileName : Str),
      (vpkRemoveFile s extension relPath extlessFileName).treeLength = s.treeLength) := by
  refine ⟨?_, vpkAddFile_preserves_inv, ?_⟩
  · unfold treeLenInv initialVpk
    simp
  · intro s extension relPath extlessFileName
    cases h1 : alFind s.tree extension with
    | none => simp [vpkRemoveFile, h1]
    | some bs =>
        cases h2 : alFind bs (fixRelPath relPath) with
        | none => simp [vpkRemoveFile, h1, h2]
        | some ls => simp [vpkRemoveFile, h1, h2]

/-- Witness for C2: the invariant holds after one concrete addFile on
the fresh archive. -/
theorem C2_treeLength_incremental_witness : treeLenInv (vpkAddFile initialVpk fileC2).1 :=
  C2_treeLength_incremental.2.1 initialVpk fileC2 C2_treeLength_incremental.1

/-- C3 counterexample: a version-1 file with declared tree length 0
followed by a single NUL parses successfully into the empty tree even
though the terminator read walks past header length + tree length
(position 12): the walk ends at position 13 > 12 with no
IndexOutOfBounds error. -/
theorem C3_counterexample :
    parseExtLoop fileC3 12 0 (0 + 12) 14 12 = .ok ([], 13) ∧
    indexFromFileInternal fileC3 14 =
      .ok { fileIndexTree := [], vpkVersion := 1, vpkTreeLength := 0,
            vpkV2Metadata := none } ∧
    0 + 12 < 13 := by decide

/-- C3 (amended): the parser checks the bound only at the top of the
extension loop, so reads inside a path or entry block may walk past
header length + tree length and the failure is raised only when control
returns to the extension loop; consequently a successful walk can end
at most one byte past `maxIndex` (the final extension terminator), as
this theorem states: a tree is returned only with end position at most
maxIndex + 1. -/
theorem C3_walk_end_bounded :
    ∀ (file : List Nat) (headerLength treeLength maxIndex fuel pos : Nat)
      (t : ParsedTree) (endPos : Nat),
      parseExtLoop file headerLength treeLength maxIndex fuel pos = .ok (t, endPos) →
      endPos ≤ maxIndex + 1 :=
  fun file hl tl mi fuel pos t e h => parseExtLoop_ok_le file hl tl mi fuel pos t e h

/-- Witness for C3: the bound instantiated on the concrete
tree-length-0 file. -/
theorem C3_walk_end_bounded_witness : (13 : Nat) ≤ 0 + 12 + 1 :=
  C3_walk_end_bounded fileC3 12 0 (0 + 12) 14 12 [] 13 (by decide)

/-- C4: for every 18-byte metadata record accepted by the parser whose
archive-index field holds the 0x7fff sentinel, the exposed archiveOffset
equals the raw on-disk offset plus tree length plus header length, the
absolute position of the entry data in the file.  (The parser applies
this normalization to every accepted record.) -/
theorem C4_archiveOffset_normalized :
    ∀ (headerLength treeLength : Nat) (buf : List Nat) (md : ParsedMeta),
      parseMetaRecord headerLength treeLength buf = .ok md →
      decodeLE16 buf 6 = 0x7fff →
      md.archiveOffset = decodeLE32 buf 8 + treeLength + headerLength :=
  fun hl tl buf md h _ => parseMetaRecord_ok_offset hl tl buf md h

/-- Witness for C4 at the concrete record written for the saved
one-entry archive. -/
theorem C4_archiveOffset_normalized_witness :
    metaC1.archiveOffset = decodeLE32 (metadataBytes 0 0 1) 8 + 29 + 12 :=
  C4_archiveOffset_normalized 12 29 (metadataBytes 0 0 1) metaC1 (by decide) (by decide)

/-- C5 counterexample: a file with valid magic and version 3 is parsed
successfully by indexFromFile (treated as a version-1 layout), refuting
the claim that the parse operations produce no result for versions
outside 1..2. -/
theorem C5_counterexample :
    decodeLE32 (readBuf fileC5 0 12) 4 = 3 ∧ vpkIndexFromFile fileC5 14 = .ok [] := by
  decide

/-- C5 (amended): a version field of 0x00030002 makes the header parser
fail with the dedicated Respawn UnsupportedVariant error; for other
versions outside 1..2, `fromFile` cannot succeed (the version validation
of setVersion rejects the parsed version after the index is read), but
`indexFromFile` does succeed, parsing the file with the version-1 header
length. -/
theorem C5_version_handling :
    (∀ (file : List Nat) (fuel : Nat),
      decodeLE32 (readBuf file 0 12) 0 = vpkMagic →
      decodeLE32 (readBuf file 0 12) 4 = 0x00030002 →
      indexFromFileInternal file fuel = .error .unsupportedVariant) ∧
    (∀ (absFilePath : Str) (file : List Nat) (fuel : Nat) (s : VpkState),
      vpkFromFile absFilePath file fuel = .ok s →
      decodeLE32 (readBuf file 0 12) 4 = 1 ∨ decodeLE32 (readBuf file 0 12) 4 = 2) :=
  ⟨indexFromFileInternal_respawn, vpkFromFile_ok_version⟩

/-- Witness for C5: the Respawn rejection on a concrete file and the
version bound on the concrete reopened archive. -/
theorem C5_version_handling_witness :
    indexFromFileInternal fileRespawn 14 = .error .unsupportedVariant ∧
    (decodeLE32 (readBuf savedC1 0 12) 4 = 1 ∨ decodeLE32 (readBuf savedC1 0 12) 4 = 2) :=
  ⟨C5_version_handling.1 fileRespawn 14 (by decide) (by decide),
   C5_version_handling.2 [112] savedC1 64 refetchedC1 (by decide)⟩

/-- C6: setVersion succeeds exactly for versions 1 and 2 (over the
integer versions of the API; in particular 0 and 3 raise the error),
and on success getVersion returns the set value and the header length
is 12 for version 1 and 28 for version 2. -/
theorem C6_setVersion :
    ∀ (s : VpkState) (v : Int),
      ((∃ s', vpkSetVersion s v = .ok s') ↔ (v = 1 ∨ v = 2)) ∧
      (∀ s', vpkSetVersion s v = .ok s' →
        vpkGetVersion s' = v ∧ s'.headerLength = if v = 1 then 12 else 28) := by
  intro s v
  constructor
  · constructor
    · rintro ⟨s', h⟩
      unfold vpkSetVersion at h
      by_cases hc : (v < 1 ∨ 2 < v)
      · rw [if_pos hc] at h; cases h
      · push_neg at hc; omega
    · intro hv
      refine ⟨{ s with version := v, headerLength := if v = 1 then 12 else 28 }, ?_⟩
      unfold vpkSetVersion
      rw [if_neg (by omega)]
  · intro s' h
    unfold vpkSetVersion at h
    by_cases hc : (v < 1 ∨ 2 < v)
    · rw [if_pos hc] at h; cases h
    · rw [if_neg hc] at h
      injection h with h
      rw [← h]
      exact ⟨rfl, rfl⟩

/-- Witness for C6 at version 1 on the fresh archive. -/
theorem C6_setVersion_witness :
    vpkGetVersion vpkV1Base = 1 ∧
    vpkV1Base.headerLength = if (1 : Int) = 1 then 12 else 28 :=
  (C6_setVersion initialVpk 1).2 vpkV1Base (by decide)

/-- C7 counterexample: with ("t", "b", "c") present, adding
("t", " b", "c") raises DuplicateEntry although the exact triple is not
present and " b" is not empty: addFile trims the relative path before
comparing, which the claim (empty-to-sentinel normalization only) does
not allow. -/
theorem C7_counterexample :
    (vpkAddFile stateC7 fileC7).2 = some .duplicateEntry ∧
    claimDuplicateCond stateC7 fileC7 = false := by decide

/-- C7 (amended): addFile fails with DuplicateEntry exactly when an
entry with the same extension and name is already present under the
trim-normalized relative path (trim, then empty to the sentinel); the
same name under a relative path that differs after trimming is
accepted. -/
theorem C7_duplicate_iff :
    ∀ (s : VpkState) (f : FileInPak),
      (vpkAddFile s f).2 = some .duplicateEntry ↔ duplicateCond s f = true :=
  vpkAddFile_err_iff

/-- Witness for C7 on the concrete colliding insertion. -/
theorem C7_duplicate_iff_witness : duplicateCond stateC7 fileC7 = true :=
  (C7_duplicate_iff stateC7 fileC7).mp (by decide)

/-- C10: when addFile raises the duplicate-entry error, the archive
state is exactly what it was before the call.  The hypothesis (a zero
tracked tree length only with an empty tree) holds in every reachable
state; it rules out the artificial state where the tree-length seed
would fire before the duplicate is detected.  The duplicate is only
detectable when the extension and path buckets already exist, so no
incremental update has happened. -/
theorem C10_duplicate_state_unchanged :
    ∀ (s : VpkState) (f : FileInPak),
      (s.treeLength = 0 → s.tree = []) →
      (vpkAddFile s f).2 = some .duplicateEntry →
      (vpkAddFile s f).1 = s :=
  fun s f hz herr => vpkAddFile_dup_state s f hz herr

/-- Witness for C10 on the concrete colliding insertion. -/
theorem C10_duplicate_state_unchanged_witness : (vpkAddFile stateC7 fileC7).1 = stateC7 :=
  C10_duplicate_state_unchanged stateC7 fileC7 (by decide) (by decide)

/-- C8: a metadata record whose suffix field differs from 0xffff makes
the record parser fail immediately with the corrupt-index error, and no
tree returned by the index walk ever contains an entry whose suffix
differs from 0xffff (no partial-tree recovery). -/
theorem C8_suffix_check :
    (∀ (headerLength treeLength : Nat) (buf : List Nat),
      decodeLE16 buf 16 ≠ 0xffff →
      parseMetaRecord headerLength treeLength buf = .error .corruptEntry) ∧
    (∀ (file : List Nat) (headerLength treeLength maxIndex fuel : Nat) (t : ParsedTree),
      getFileIndexTree file headerLength treeLength maxIndex fuel = .ok t →
      ∀ entry ∈ parsedEntriesOf t, entry.2.2.metadata.suffix = 0xffff) := by
  constructor
  · intro hl tl buf h
    unfold parseMetaRecord
    rw [if_pos h]
  · intro file hl tl mi fuel t h entry hmem
    unfold getFileIndexTree at h
    cases hp : parseExtLoop file hl tl mi fuel hl with
    | error e => rw [hp] at h; cases h
    | ok pr =>
        rw [hp] at h
        simp only [Except.map] at h
        injection h with h
        have hall := parseExtLoop_suffix file hl tl mi fuel hl pr.1 pr.2 (by rw [hp])
        rw [← h] at hmem
        simp only [parsedEntriesOf, List.mem_flatMap, List.mem_map] at hmem
        obtain ⟨x, hx, b, hb, leaf, hlf, heq⟩ := hmem
        rw [← heq]
        exact hall x hx b hb leaf hlf

/-- Witness for C8: a zero record is rejected, and the entry of a
concretely parsed tree has suffix 0xffff. -/
theorem C8_suffix_check_witness :
    parseMetaRecord 12 0 (List.replicate 18 0) = .error .corruptEntry ∧
    ((([116, 120, 116], [32], { fileName := [97], metadata := metaC1 }) :
      Str × Str × ParsedLeaf)).2.2.metadata.suffix = 0xffff :=
  ⟨C8_suffix_check.1 12 0 (List.replicate 18 0) (by decide),
   C8_suffix_check.2 savedC1 12 29 41 64 treeC1 (by decide)
     ([116, 120, 116], [32], { fileName := [97], metadata := metaC1 }) (by decide)⟩

/-- C9: an entry added with the empty relative path is retrievable via
getFile with the empty relative path (returned with relPath empty), and
the single-space sentinel never appears as a relPath in any public
result: getFile and getFiles return trimmed paths (never the sentinel
string), and indexFromFile renders sentinel buckets as plain
name.extension. -/
theorem C9_sentinel_never_leaks :
    (∀ (s : VpkState) (extension relPath extlessFileName : Str) (f : FileInPak),
      vpkGetFile s extension relPath extlessFileName = some f →
      f.relPath ≠ sentinelPath) ∧
    (∀ (s : VpkState) (f : FileInPak), f ∈ vpkGetFiles s → f.relPath ≠ sentinelPath) ∧
    (∀ (file : List Nat) (fuel : Nat) (entries : List IndexEntry) (e : IndexEntry),
      vpkIndexFromFile file fuel = .ok entries → e ∈ entries →
      e.relPath ≠ sentinelPath) ∧
    (∀ (s : VpkState) (f : FileInPak), f.relPath = [] → (vpkAddFile s f).2 = none →
      vpkGetFile (vpkAddFile s f).1 f.extension [] f.extlessFileName =
        some { extension := f.extension, relPath := [],
               extlessFileName := f.extlessFileName, dataSource := f.dataSource }) := by
  refine ⟨?_, ?_, ?_, vpkAddFile_ok_getFile⟩
  · intro s extension relPath extlessFileName f h
    unfold vpkGetFile at h
    cases h1 : alFind s.tree extension with
    | none => rw [h1] at h; cases h
    | some buckets =>
        rw [h1] at h
        dsimp only at h
        cases h2 : alFind buckets (fixRelPath relPath) with
        | none => rw [h2] at h; cases h
        | some leafArr =>
            rw [h2] at h
            dsimp only at h
            cases h3 : leafArr.find? (fun leaf => leaf.fileName = extlessFileName) with
            | none => rw [h3] at h; cases h
            | some leaf =>
                rw [h3] at h
                injection h with h
                intro hc
                rw [← h] at hc
                exact jsTrim_ne_sentinel _ hc
  · intro s f hmem
    unfold vpkGetFiles at hmem
    simp only [List.mem_flatMap, List.mem_map] at hmem
    obtain ⟨x, hx, b, hb, leaf, hlf, heq⟩ := hmem
    rw [← heq]
    exact jsTrim_ne_sentinel b.1
  · intro file fuel entries e h hmem
    unfold vpkIndexFromFile at h
    cases hint : indexFromFileInternal file fuel with
    | error e' => rw [hint] at h; cases h
    | ok r =>
        rw [hint] at h
        dsimp only at h
        injection h with h
        rw [← h] at hmem
        simp only [List.mem_map] at hmem
        obtain ⟨entry, hmem2, heq⟩ := hmem
        rw [← heq]
        dsimp only
        by_cases hcase : jsTrim entry.2.1 ≠ []
        · rw [if_pos hcase]
          intro hc
          have hlen := congrArg List.length hc
          simp [sentinelPath] at hlen
          omega
        · rw [if_neg hcase]
          intro hc
          have hlen := congrArg List.length hc
          simp [sentinelPath] at hlen
          have hn : entry.2.2.fileName = [] := List.length_eq_zero.mp (by omega)
          have he : entry.1 = [] := List.length_eq_zero.mp (by omega)
          rw [hn, he] at hc
          simp [sentinelPath] at hc

/-- Witness for C9 on concrete archives and the concrete saved file. -/
theorem C9_sentinel_never_leaks_witness :
    fileInC7.relPath ≠ sentinelPath ∧
    entryC1.relPath ≠ sentinelPath ∧
    vpkGetFile (vpkAddFile initialVpk bufferFile).1 bufferFile.extension []
        bufferFile.extlessFileName =
      some { extension := bufferFile.extension, relPath := [],
             extlessFileName := bufferFile.extlessFileName,
             dataSource := bufferFile.dataSource } :=
  ⟨C9_sentinel_never_leaks.1 stateC7 [116] [98] [99] fileInC7 (by decide),
   C9_sentinel_never_leaks.2.2.1 savedC1 64 [entryC1] entryC1 (by decide) (by decide),
   C9_sentinel_never_leaks.2.2.2 initialVpk bufferFile rfl (by decide)⟩
